import Mathlib

/-!
Verification of the PySPQR conversion-and-call layer (`spqr.py`).

The repository is a thin wrapper around the SuiteSparseQR / CHOLMOD native
library.  The in-repository logic is: converting a coordinate (COO) sparse
matrix to the native triplet representation and back, driving one QR
factorization call, and building a permutation matrix from a permutation
vector.  The native library itself is external and opaque; where a native
entry point's behaviour is needed it is modelled from the specification's
description of the native surface, and is marked as such in its doc comment.

Value payloads (the doubles of the native buffers) are modelled by an
exact integer carrier: the in-repository code only ever copies values
verbatim and never computes with them, so any carrier with decidable
equality is faithful to the copy semantics; the one arithmetic step (the
spec-modelled native duplicate summing) uses the carrier's addition.
-/

namespace SPQR

/-- One stored (row, column, value) triple of a sparse matrix. -/
structure Entry where
  row : Int
  col : Int
  val : Int
deriving DecidableEq, Repr

/-- The (row, column) position of an entry. -/
def entryKey (e : Entry) : Int × Int := (e.row, e.col)

/-- Zip three parallel arrays (row indices, column indices, values) into a
list of entries, mirroring how the parallel numpy / native buffers of the
source code represent a sparse matrix. -/
def zipE : List Int → List Int → List Int → List Entry
  | r :: rs, c :: cs, v :: vs => ⟨r, c, v⟩ :: zipE rs cs vs
  | _, _, _ => []

/-- A scipy coordinate (COO) sparse matrix: a shape plus parallel arrays
`row`, `col`, `data`, exactly the fields `spqr.py` reads and writes
(`scipy_A.shape`, `scipy_A.row`, `scipy_A.col`, `scipy_A.data`). -/
structure ScipyCoo where
  nrow : Nat
  ncol : Nat
  row : List Int
  col : List Int
  data : List Int
deriving DecidableEq, Repr

/-- scipy's `nnz` attribute: the number of stored values. -/
def ScipyCoo.nnz (A : ScipyCoo) : Nat := A.data.length

/-- The stored entries of a COO matrix as (row, col, value) triples. -/
def ScipyCoo.toEntries (A : ScipyCoo) : List Entry := zipE A.row A.col A.data

/-- The coordinate-matrix invariants of the specification's data model:
the parallel arrays have matching lengths and all indices lie inside the
shape.  Duplicate (row, col) pairs are allowed. -/
def cooInvariants (A : ScipyCoo) : Prop :=
  A.row.length = A.nnz ∧ A.col.length = A.nnz ∧
  (∀ i ∈ A.row, 0 ≤ i ∧ i < (A.nrow : Int)) ∧
  (∀ j ∈ A.col, 0 ≤ j ∧ j < (A.ncol : Int))

instance (A : ScipyCoo) : Decidable (cooInvariants A) := by
  unfold cooInvariants; infer_instance

/-- A native `cholmod_triplet` handle: shape, the three parallel buffers
`i`, `j`, `x`, and the explicitly set `nnz` field (`chol_A.nnz = nnz` in
the source, distinct from the allocation capacity). -/
structure CholTriplet where
  nrow : Nat
  ncol : Nat
  rowIdx : List Int
  colIdx : List Int
  xval : List Int
  nnz : Nat
deriving DecidableEq, Repr

/-- A native `cholmod_sparse` (compressed sparse-column) handle, abstracted
to its shape and stored entries; the CSC memory layout itself is opaque to
the wrapper, which only ever passes such handles between native calls. -/
structure CholSparse where
  nrow : Nat
  ncol : Nat
  entries : List Entry
deriving DecidableEq, Repr

/-- Keep the first occurrence of each key, dropping later duplicates. -/
def dedupFirst : List (Int × Int) → List (Int × Int)
  | [] => []
  | k :: ks => k :: ((dedupFirst ks).filter (fun x => decide (x ≠ k)))

/-- Combine entries sharing a (row, col) position by summing their values;
positions keep their first-occurrence order. -/
def compress (es : List Entry) : List Entry :=
  (dedupFirst (es.map entryKey)).map (fun k =>
    ⟨k.1, k.2, ((es.filter (fun f => decide (entryKey f = k))).map Entry.val).sum⟩)

/-- Modelled from the spec: `cholmod_l_check_triplet`, the native-side
structural validity check on a populated triplet, is not part of this
repository.  Per the specification's coordinate-matrix invariant it checks
that row/column indices are within `[0, rowCount)` / `[0, colCount)` and
that the value count matches the number of triples supplied (`nnz`).
It returns the native TRUE value 1 on success and 0 on failure. -/
def cholmod_l_check_triplet (t : CholTriplet) : Int :=
  if t.rowIdx.length = t.nnz ∧ t.colIdx.length = t.nnz ∧ t.xval.length = t.nnz ∧
      (∀ i ∈ t.rowIdx, 0 ≤ i ∧ i < (t.nrow : Int)) ∧
      (∀ j ∈ t.colIdx, 0 ≤ j ∧ j < (t.ncol : Int))
  then 1 else 0

/-- Modelled from the spec: `cholmod_l_triplet_to_sparse`, the native
triplet → compressed-sparse-column conversion entry point, is not part of
this repository.  The specification states that duplicate (row, col) pairs
need not be deduplicated by the wrapper because the native library's
consumer deduplicates; accordingly the conversion combines entries sharing
a (row, col) position (summing their values, as CHOLMOD documents), and the
shape is preserved.  Entry order inside the handle is opaque to the wrapper
and irrelevant to the multiset-level properties proved below. -/
def cholmod_l_triplet_to_sparse (t : CholTriplet) : CholSparse :=
  ⟨t.nrow, t.ncol, compress (zipE t.rowIdx t.colIdx t.xval)⟩

/-- Modelled from the spec: `cholmod_l_sparse_to_triplet`, the native
compressed → triplet conversion entry point, is not part of this
repository.  It enumerates the stored entries of the compressed handle
into the three parallel triplet buffers and sets `nnz` to their count,
preserving the shape. -/
def cholmod_l_sparse_to_triplet (s : CholSparse) : CholTriplet :=
  ⟨s.nrow, s.ncol, s.entries.map Entry.row, s.entries.map Entry.col,
    s.entries.map Entry.val, s.entries.length⟩

/-- The triplet-population steps of `scipy2choldmod` (lines 42-56 of
`spqr.py`): allocate a triplet of A's shape and `nnz`, copy the `row`,
`col` and `data` arrays verbatim into the native buffers, and set the
handle's `nnz` field. -/
def mkTriplet (A : ScipyCoo) : CholTriplet :=
  ⟨A.nrow, A.ncol, A.row, A.col, A.data, A.nnz⟩

/-- Embedding of `scipy2choldmod` (lines 39-66 of `spqr.py`).  The first
component is the returned compressed handle (`none` models the
`AssertionError` raised when the native structural check does not return 1,
in which case nothing is returned).  The second component counts how many
times the intermediate triplet handle was released via
`cholmod_free_triplet`: the free at line 64 happens only after the assert
at line 59 has passed, so the fatal path performs no release. -/
def scipy2choldmod (A : ScipyCoo) : Option CholSparse × Nat :=
  let chol_A := mkTriplet A
  if cholmod_l_check_triplet chol_A = 1 then
    (some (cholmod_l_triplet_to_sparse chol_A), 1)
  else
    (none, 0)

/-- Embedding of `cholmod2scipy` (lines 68-97 of `spqr.py`): convert the
compressed handle to a triplet, read exactly `nnz` entries out of each of
the three buffers (the `[0:nnz]` slices of the source), and build a COO
matrix with the triplet's shape.  The second component counts releases of
the intermediate triplet handle: exactly one, on the only exit path. -/
def cholmod2scipy (chol_A : CholSparse) : ScipyCoo × Nat :=
  let t := cholmod_l_sparse_to_triplet chol_A
  let nnz := t.nnz
  (⟨t.nrow, t.ncol, t.rowIdx.take nnz, t.colIdx.take nnz, t.xval.take nnz⟩, 1)

/-- The round trip of the two conversions: scipy COO → native triplet →
native compressed → native triplet → scipy COO. -/
def roundtrip (A : ScipyCoo) : Option ScipyCoo :=
  match (scipy2choldmod A).1 with
  | none => none
  | some s => some (cholmod2scipy s).1

/-- A C pointer value, identified by its address. -/
structure Ptr where
  addr : Nat
deriving DecidableEq, Repr

/-- The cffi null sentinel `ffi.NULL`: address 0. -/
def ffiNULL : Ptr := ⟨0⟩

/-- Result of `ffi.new(...)`: cffi allocates a fresh owned object and
returns a pointer to it, which is never the null pointer; modelled as a
fixed nonzero address. -/
def ffiNew : Ptr := ⟨1⟩

/-- The outputs of the native `SuiteSparseQR_C_QR` entry point, which is
external to this repository and treated as opaque: the Q and R compressed
handles, the permutation pointer the native call stores into the
`chol_E` out-parameter (`none` models storing the native NULL sentinel,
`some buf` a buffer whose k-th element is `buf k`), and the returned
integer rank estimate. -/
structure NativeQROut where
  q : CholSparse
  r : CholSparse
  estored : Option (Nat → Int)
  rank : Int

/-- Embedding of `qr` (lines 104-150 of `spqr.py`), parametrised by the
behaviour `nqr` of the opaque native `SuiteSparseQR_C_QR` call.  `none`
models a call that does not return normally: either the `AssertionError`
inside `scipy2choldmod`, or the dereference of a null stored permutation
pointer at line 142 (the test at line 135 compares the freshly allocated
out-parameter wrapper `chol_E`, never the pointer the native call stored
into it, so the `E = None` branch is taken only if `ffi.new` returned
NULL).  On the branch actually taken, exactly `A.shape[1]` entries are
copied out of the stored buffer. -/
def qr (nqr : CholSparse → NativeQROut) (A : ScipyCoo) :
    Option (ScipyCoo × ScipyCoo × Option (List Int) × Int) :=
  match (scipy2choldmod A).1 with
  | none => none
  | some chol_A =>
    let chol_E : Ptr := ffiNew
    let out := nqr chol_A
    let scipy_Q := (cholmod2scipy out.q).1
    let scipy_R := (cholmod2scipy out.r).1
    if chol_E = ffiNULL then
      some (scipy_Q, scipy_R, none, out.rank)
    else
      match out.estored with
      | none => none
      | some buf => some (scipy_Q, scipy_R, some ((List.range A.ncol).map buf), out.rank)

/-- The entry construction of `permutation_from_E` (lines 152-155 of
`spqr.py`): the arrays `( ones(n), ( E, arange(n) ) )` with shape (n, n)
and `n = len(E)`, as a record.  The `coo_matrix` constructor's index
validation is modelled separately in `coo_matrix` below and composed in
`permutation_from_E_checked`; on in-range index vectors (the hypotheses of
the bijection claims) the constructor returns exactly this record. -/
def permutation_from_E (E : List Int) : ScipyCoo :=
  let n := E.length
  ⟨n, n, E, (List.range n).map Int.ofNat, List.replicate n 1⟩

/-- The `scipy.sparse.coo_matrix((data, (i, j)), shape)` constructor.
Before returning, it calls its `_check()` validation, which raises
`ValueError` whenever a row or column index is negative or does not fit
the given shape ("row index exceeds matrix dimensions" / "negative row
index found"); `none` models the raise.  On in-range indices the
constructor yields exactly the record the arrays describe.  Modelled from
scipy's documented, version-stable constructor behaviour, scipy being an
external library not contained in this repository. -/
def coo_matrix (nrow ncol : Nat) (row col : List Int) (data : List Int) :
    Option ScipyCoo :=
  if (∀ i ∈ row, 0 ≤ i ∧ i < (nrow : Int)) ∧ (∀ j ∈ col, 0 ≤ j ∧ j < (ncol : Int)) then
    some ⟨nrow, ncol, row, col, data⟩
  else none

/-- Full embedding of `permutation_from_E` (lines 152-155 of `spqr.py`),
including the `coo_matrix` constructor's index validation: the entry
construction composed with the constructor's check, so the constructor's
error path (a `ValueError` on out-of-range or negative entries of E) is
carried as `none`. -/
def permutation_from_E_checked (E : List Int) : Option ScipyCoo :=
  let n := E.length
  coo_matrix n n E ((List.range n).map Int.ofNat) (List.replicate n 1)

/-- The entry list `[(E[0], 0, 1), (E[1], 1, 1), ...]` that the
specification prescribes for the permutation matrix, with column indices
starting at `k`; stated from the spec's words for comparison with the
source-translated `permutation_from_E`. -/
def expectedPermEntries : List Int → Nat → List Entry
  | [], _ => []
  | r :: rest, k => ⟨r, (k : Int), 1⟩ :: expectedPermEntries rest (k + 1)

/-- A default entry used with `List.getD`. -/
def entryDefault : Entry := ⟨0, 0, 0⟩

/-! ### Run relations

One call of each operation of the conversion-and-call layer, as a relation
between the operation's input and the result of the run.  Each constructor
names the intermediate native values of the corresponding code path and
constrains them by the equations the code establishes, so that determinism
of a run is a property to be proved, not a definitional triviality. -/

/-- One run of `scipy2choldmod`: populate the triplet, check it, and either
convert-then-free (check passed) or abort on the failed assert. -/
inductive ConvRun : ScipyCoo → Option CholSparse × Nat → Prop where
  | ok : ∀ A t, t = mkTriplet A → cholmod_l_check_triplet t = 1 →
      ConvRun A (some (cholmod_l_triplet_to_sparse t), 1)
  | fatal : ∀ A t, t = mkTriplet A → cholmod_l_check_triplet t ≠ 1 →
      ConvRun A (none, 0)

/-- One run of `cholmod2scipy`: convert to a triplet, copy the `nnz`-entry
slices out, build the COO matrix, free the triplet. -/
inductive BackRun : CholSparse → ScipyCoo × Nat → Prop where
  | steps : ∀ s t, t = cholmod_l_sparse_to_triplet s →
      BackRun s (⟨t.nrow, t.ncol, t.rowIdx.take t.nnz, t.colIdx.take t.nnz,
        t.xval.take t.nnz⟩, 1)

/-- One run of `qr`, for a fixed behaviour `nqr` of the opaque native
factorization call; the four constructors are the four exit paths of the
source (conversion assert, `E = None` branch, null-pointer dereference,
and the normal return). -/
inductive QrRun (nqr : CholSparse → NativeQROut) :
    ScipyCoo → Option (ScipyCoo × ScipyCoo × Option (List Int) × Int) → Prop where
  | fatal : ∀ A, (scipy2choldmod A).1 = none → QrRun nqr A none
  | noPerm : ∀ A cA out, (scipy2choldmod A).1 = some cA → out = nqr cA →
      ffiNew = ffiNULL →
      QrRun nqr A (some ((cholmod2scipy out.q).1, (cholmod2scipy out.r).1, none, out.rank))
  | crash : ∀ A cA out, (scipy2choldmod A).1 = some cA → out = nqr cA →
      ffiNew ≠ ffiNULL → out.estored = none → QrRun nqr A none
  | perm : ∀ A cA out buf, (scipy2choldmod A).1 = some cA → out = nqr cA →
      ffiNew ≠ ffiNULL → out.estored = some buf →
      QrRun nqr A (some ((cholmod2scipy out.q).1, (cholmod2scipy out.r).1,
        some ((List.range A.ncol).map buf), out.rank))

/-- One run of `permutation_from_E`. -/
inductive PermRun : List Int → ScipyCoo → Prop where
  | steps : ∀ E n, n = E.length →
      PermRun E ⟨n, n, E, (List.range n).map Int.ofNat, List.replicate n 1⟩

/-! ### Concrete inputs used by witnesses and counterexamples -/

/-- A well-formed 1×1 COO matrix with a single entry. -/
def A1 : ScipyCoo := ⟨1, 1, [0], [0], [1]⟩

/-- The compressed handle `scipy2choldmod` produces from `A1`. -/
def S1c : CholSparse := ⟨1, 1, [⟨0, 0, 1⟩]⟩

/-- A structurally invalid 1×1 COO matrix: its row index 5 is out of
range, so the native structural check rejects the populated triplet. -/
def Abad : ScipyCoo := ⟨1, 1, [5], [0], [1]⟩

/-- A 1×1 COO matrix with a duplicated (row, col) position. -/
def Adup : ScipyCoo := ⟨1, 1, [0, 0], [0, 0], [1, 2]⟩

/-- A 2×2 COO matrix with distinct (row, col) positions. -/
def A2 : ScipyCoo := ⟨2, 2, [0, 1], [1, 0], [2, 5]⟩

/-- A native-call behaviour that echoes its input as Q and R, stores a
non-null permutation buffer holding 0, 1, 2, ..., and returns rank 0. -/
def nqr0 : CholSparse → NativeQROut := fun s => ⟨s, s, some (fun k => (k : Int)), 0⟩

/-- A native-call behaviour that stores the null sentinel in the
permutation out-parameter (the native library does so, for example, when
no column permutation is computed). -/
def nqrNull : CholSparse → NativeQROut := fun s => ⟨s, s, none, 0⟩

/-- The COO matrix the round trip produces from `Adup`: the two entries at
position (0,0) have been combined into one by the native conversion. -/
def Bdup : ScipyCoo := ⟨1, 1, [0], [0], [3]⟩

/-- The result `qr nqr0 A1` returns. -/
def res1 : ScipyCoo × ScipyCoo × Option (List Int) × Int := (A1, A1, some [(0 : Int)], 0)

/-- The specification's description of the matrix `permutationMatrixFromVector`
builds from a length-n vector E: an n×n coordinate matrix whose k-th stored
entry is the unit entry at position (E[k], k), with exactly one unit entry
for each row index and for each column index in [0, n). -/
def permMatrixSpec (E : List Int) (P : ScipyCoo) : Prop :=
  P.nrow = E.length ∧ P.ncol = E.length ∧
  P.toEntries.length = E.length ∧
  (∀ k, k < E.length → P.toEntries.getD k entryDefault = ⟨E.getD k 0, (k : Int), 1⟩) ∧
  (∀ r : Int, 0 ≤ r → r < (E.length : Int) →
    P.toEntries.countP (fun e => decide (e.row = r ∧ e.val = 1)) = 1) ∧
  (∀ c : Int, 0 ≤ c → c < (E.length : Int) →
    P.toEntries.countP (fun e => decide (e.col = c ∧ e.val = 1)) = 1)

/-! ### Lemmas about the entry-list operations -/

theorem zipE_proj (es : List Entry) :
    zipE (es.map Entry.row) (es.map Entry.col) (es.map Entry.val) = es := by
  induction es with
  | nil => rfl
  | cons e es ih => simpa [zipE] using ih

theorem dedupFirst_of_nodup {l : List (Int × Int)} (h : l.Nodup) :
    dedupFirst l = l := by
  induction l with
  | nil => rfl
  | cons k ks ih =>
    rcases List.nodup_cons.mp h with ⟨hk, hks⟩
    rw [dedupFirst, ih hks, List.filter_eq_self.mpr]
    intro x hx
    simp only [decide_eq_true_eq]
    intro hxk
    exact hk (hxk ▸ hx)

theorem filter_key_singleton {es : List Entry}
    (h : (es.map entryKey).Nodup) :
    ∀ e ∈ es, es.filter (fun f => decide (entryKey f = entryKey e)) = [e] := by
  induction es with
  | nil => intro e he; cases he
  | cons a es ih =>
    rcases List.nodup_cons.mp h with ⟨ha, hes⟩
    intro e he
    rcases List.mem_cons.mp he with he | he
    · subst he
      rw [List.filter_cons_of_pos (by simp)]
      congr 1
      rw [List.filter_eq_nil_iff]
      intro f hf
      simp only [decide_eq_true_eq]
      intro hfe
      exact ha (hfe ▸ List.mem_map_of_mem entryKey hf)
    · have hne : entryKey a ≠ entryKey e := by
        intro hae
        exact ha (hae ▸ List.mem_map_of_mem entryKey he)
      rw [List.filter_cons_of_neg (by simpa using hne)]
      exact ih hes e he

theorem compress_of_nodup {es : List Entry}
    (h : (es.map entryKey).Nodup) : compress es = es := by
  unfold compress
  rw [dedupFirst_of_nodup h, List.map_map]
  have : ∀ e ∈ es, ((fun k : Int × Int =>
      (⟨k.1, k.2, ((es.filter (fun f => decide (entryKey f = k))).map Entry.val).sum⟩ : Entry))
        ∘ entryKey) e = id e := by
    intro e he
    simp only [Function.comp_apply, id_eq]
    rw [filter_key_singleton h e he]
    simp [entryKey]
  rw [List.map_congr_left this, List.map_id]

/-! ### Lemmas about the conversions -/

theorem check_of_invariants {A : ScipyCoo} (h : cooInvariants A) :
    cholmod_l_check_triplet (mkTriplet A) = 1 := by
  obtain ⟨h1, h2, h3, h4⟩ := h
  unfold cholmod_l_check_triplet mkTriplet
  rw [if_pos]
  exact ⟨h1, h2, rfl, h3, h4⟩

theorem scipy2choldmod_of_check_pass {A : ScipyCoo}
    (h : cholmod_l_check_triplet (mkTriplet A) = 1) :
    scipy2choldmod A = (some (cholmod_l_triplet_to_sparse (mkTriplet A)), 1) := by
  show (if cholmod_l_check_triplet (mkTriplet A) = 1 then _ else _) = _
  rw [if_pos h]

theorem scipy2choldmod_of_check_fail {A : ScipyCoo}
    (h : cholmod_l_check_triplet (mkTriplet A) ≠ 1) :
    scipy2choldmod A = (none, 0) := by
  show (if cholmod_l_check_triplet (mkTriplet A) = 1 then _ else _) = _
  rw [if_neg h]

theorem cholmod2scipy_toEntries (s : CholSparse) :
    ((cholmod2scipy s).1).toEntries = s.entries := by
  have ht : ∀ f : Entry → Int,
      (s.entries.map f).take s.entries.length = s.entries.map f := by
    intro f
    conv_lhs => rw [← List.length_map s.entries f]
    exact List.take_length _
  show zipE ((s.entries.map Entry.row).take s.entries.length)
      ((s.entries.map Entry.col).take s.entries.length)
      ((s.entries.map Entry.val).take s.entries.length) = s.entries
  rw [ht Entry.row, ht Entry.col, ht Entry.val]
  exact zipE_proj s.entries

theorem triplet_to_sparse_entries (A : ScipyCoo) :
    (cholmod_l_triplet_to_sparse (mkTriplet A)).entries = compress A.toEntries := rfl

/-! ### Lemmas about the permutation matrix construction -/

theorem zipE_range' (E : List Int) (off : Nat) :
    zipE E ((List.range' off E.length).map Int.ofNat) (List.replicate E.length 1) =
      expectedPermEntries E off := by
  induction E generalizing off with
  | nil => rfl
  | cons r rest ih =>
    simp only [List.length_cons, List.range'_succ, List.replicate_succ, List.map_cons, zipE,
      expectedPermEntries, ih (off + 1), Int.ofNat_eq_natCast]

theorem toEntries_permutation_from_E (E : List Int) :
    (permutation_from_E E).toEntries = expectedPermEntries E 0 := by
  show zipE E ((List.range E.length).map Int.ofNat) (List.replicate E.length 1) =
    expectedPermEntries E 0
  rw [List.range_eq_range']
  exact zipE_range' E 0

theorem expectedPermEntries_length (E : List Int) (off : Nat) :
    (expectedPermEntries E off).length = E.length := by
  induction E generalizing off with
  | nil => rfl
  | cons r rest ih => simp only [expectedPermEntries, List.length_cons, ih (off + 1)]

theorem expectedPermEntries_getD (E : List Int) (off k : Nat) (hk : k < E.length) :
    (expectedPermEntries E off).getD k entryDefault =
      ⟨E.getD k 0, ((off + k : Nat) : Int), 1⟩ := by
  induction E generalizing off k with
  | nil => simp at hk
  | cons r rest ih =>
    cases k with
    | zero => simp [expectedPermEntries]
    | succ k =>
      have hk' : k < rest.length := by simpa using Nat.lt_of_succ_lt_succ hk
      rw [expectedPermEntries, List.getD_cons_succ, List.getD_cons_succ, ih (off + 1) k hk',
        show off + 1 + k = off + (k + 1) from by omega]

theorem expectedPermEntries_countP_col (E : List Int) (off : Nat) (c : Int) :
    (expectedPermEntries E off).countP (fun e => decide (e.col = c ∧ e.val = 1)) =
      if (off : Int) ≤ c ∧ c < (off : Int) + (E.length : Int) then 1 else 0 := by
  induction E generalizing off with
  | nil =>
    rw [expectedPermEntries, List.countP_nil, List.length_nil, if_neg (by push_cast; omega)]
  | cons r rest ih =>
    rw [expectedPermEntries, List.countP_cons, ih (off + 1), List.length_cons]
    simp only [decide_eq_true_eq, and_true]
    split_ifs <;> push_cast at * <;> omega

theorem expectedPermEntries_countP_row (E : List Int) (off : Nat) (r : Int) :
    (expectedPermEntries E off).countP (fun e => decide (e.row = r ∧ e.val = 1)) =
      E.count r := by
  induction E generalizing off with
  | nil => rfl
  | cons a rest ih =>
    rw [expectedPermEntries, List.countP_cons, ih (off + 1), List.count_cons]
    simp [decide_eq_true_eq]

theorem perm_cols_in_range (n : Nat) :
    ∀ j ∈ (List.range n).map Int.ofNat, 0 ≤ j ∧ j < (n : Int) := by
  intro j hj
  obtain ⟨k, hk, rfl⟩ := List.mem_map.mp hj
  have hkn := List.mem_range.mp hk
  simp only [Int.ofNat_eq_natCast]
  omega

theorem permutation_from_E_checked_of_in_range {E : List Int}
    (hr : ∀ x ∈ E, 0 ≤ x ∧ x < (E.length : Int)) :
    permutation_from_E_checked E = some (permutation_from_E E) := by
  show coo_matrix E.length E.length E ((List.range E.length).map Int.ofNat)
    (List.replicate E.length 1) = some (permutation_from_E E)
  unfold coo_matrix
  rw [if_pos ⟨hr, perm_cols_in_range E.length⟩]
  rfl

theorem count_eq_one_of_bij {E : List Int}
    (hb : ∀ x ∈ E, 0 ≤ x ∧ x < (E.length : Int)) (hnd : E.Nodup)
    {r : Int} (h0 : 0 ≤ r) (h1 : r < (E.length : Int)) : E.count r = 1 := by
  have hinj : Function.Injective (fun n : Nat => (n : Int)) := fun a b h => by
    simpa using h
  have hsub : E.toFinset ⊆ (Finset.range E.length).image (fun n : Nat => (n : Int)) := by
    intro x hx
    have hxE := List.mem_toFinset.mp hx
    obtain ⟨hx0, hx1⟩ := hb x hxE
    exact Finset.mem_image.mpr ⟨x.toNat, Finset.mem_range.mpr (by omega), by omega⟩
  have hcard : ((Finset.range E.length).image (fun n : Nat => (n : Int))).card ≤
      E.toFinset.card := by
    rw [Finset.card_image_of_injective _ hinj, Finset.card_range,
      List.toFinset_card_of_nodup hnd]
  have heq := Finset.eq_of_subset_of_card_le hsub hcard
  have hrmem : r ∈ E := by
    have hr : r ∈ (Finset.range E.length).image (fun n : Nat => (n : Int)) :=
      Finset.mem_image.mpr ⟨r.toNat, Finset.mem_range.mpr (by omega), by omega⟩
    rw [← heq] at hr
    exact List.mem_toFinset.mp hr
  exact List.count_eq_one_of_mem hnd hrmem

/-! ### The run relations are graphs of the embedded functions -/

theorem convRun_eq {A : ScipyCoo} {r : Option CholSparse × Nat}
    (h : ConvRun A r) : scipy2choldmod A = r := by
  cases h with
  | ok t ht hc => subst ht; exact scipy2choldmod_of_check_pass hc
  | fatal t ht hc => subst ht; exact scipy2choldmod_of_check_fail hc

theorem backRun_eq {s : CholSparse} {r : ScipyCoo × Nat}
    (h : BackRun s r) : cholmod2scipy s = r := by
  cases h with
  | steps t ht => subst ht; rfl

theorem qrRun_eq {nqr : CholSparse → NativeQROut} {A : ScipyCoo}
    {r : Option (ScipyCoo × ScipyCoo × Option (List Int) × Int)}
    (h : QrRun nqr A r) : qr nqr A = r := by
  cases h with
  | fatal hA => simp [qr, hA]
  | noPerm cA out hA hout hnull => exact absurd hnull (by decide)
  | crash cA out hA hout hnn hE =>
    subst hout; simp [qr, hA, hE, ffiNew, ffiNULL]
  | perm cA out buf hA hout hnn hE =>
    subst hout; simp [qr, hA, hE, ffiNew, ffiNULL]

theorem permRun_eq {E : List Int} {M : ScipyCoo}
    (h : PermRun E M) : permutation_from_E E = M := by
  cases h with
  | steps n hn => subst hn; rfl

/-! ### The claims -/

/-- C2: the claim says `qr` reports the permutation as absent (None) exactly
when the native call stored the null sentinel in the permutation
out-parameter.  The code instead compares the freshly allocated `ffi.new`
wrapper (never null) against `ffi.NULL`, so at a well-formed input whose
native call stores the null sentinel, `qr` does not return `E = None`: the
conversion succeeds, the wrapper comparison at line 135 is false, and the
call dereferences the null stored pointer (does not return normally),
contradicting both the claim and the code's own comment at line 134. -/
theorem C2_null_sentinel_not_reported_absent :
    qr nqrNull A1 = none ∧
    (scipy2choldmod A1).1 ≠ none ∧
    ffiNew ≠ ffiNULL ∧
    (nqrNull S1c).estored.isNone = true := by decide

/-- C3: for every call of `qr` that returns, the permutation component of
the result is an integer array of length equal to the input's column
count; the absent outcome (E = None) never occurs, because the null test
compares the freshly allocated out-parameter wrapper, which is never
null. -/
theorem C3_returned_permutation_never_absent
    (nqr : CholSparse → NativeQROut) (A : ScipyCoo)
    (res : ScipyCoo × ScipyCoo × Option (List Int) × Int)
    (h : qr nqr A = some res) :
    ∃ l : List Int, res.2.2.1 = some l ∧ l.length = A.ncol := by
  simp only [qr] at h
  split at h
  · cases h
  · rename_i cA heq
    rw [if_neg (show ¬ ffiNew = ffiNULL from by decide)] at h
    split at h
    · cases h
    · rename_i buf hbuf
      obtain rfl := Option.some.inj h
      exact ⟨(List.range A.ncol).map buf, rfl, by simp⟩

/-- Witness for C3 at the concrete input `A1` with native behaviour
`nqr0`. -/
theorem C3_returned_permutation_never_absent_witness :
    qr nqr0 A1 = some res1 ∧
    ∃ l : List Int, res1.2.2.1 = some l ∧ l.length = A1.ncol :=
  ⟨by decide, C3_returned_permutation_never_absent nqr0 A1 res1 (by decide)⟩

/-- C4 counterexample: `Adup` satisfies the coordinate-matrix invariants
(which allow duplicate positions) and has nnz = 2 > 0, yet the round trip
returns a matrix whose (row, col, value) multiset differs from `Adup`'s:
the native conversion combines the two entries at position (0,0). -/
theorem C4_roundtrip_duplicates_counterexample :
    cooInvariants Adup ∧ 0 < Adup.nnz ∧
    roundtrip Adup = some Bdup ∧
    Multiset.ofList Bdup.toEntries ≠ Multiset.ofList Adup.toEntries := by decide

/-- C4 (amended): for every coordinate matrix A with nnz > 0 satisfying the
coordinate-matrix invariants whose (row, col) positions are pairwise
distinct, the round trip `cholmod2scipy (scipy2choldmod A)` reproduces A's
multiset of (row, col, value) triples exactly. -/
theorem C4_roundtrip_distinct_positions (A : ScipyCoo)
    (hinv : cooInvariants A) (hnd : (A.toEntries.map entryKey).Nodup)
    (_hnnz : 0 < A.nnz) :
    ∃ B, roundtrip A = some B ∧
      Multiset.ofList B.toEntries = Multiset.ofList A.toEntries := by
  have hc := check_of_invariants hinv
  have h1 : (scipy2choldmod A).1 = some (cholmod_l_triplet_to_sparse (mkTriplet A)) := by
    rw [scipy2choldmod_of_check_pass hc]
  refine ⟨(cholmod2scipy (cholmod_l_triplet_to_sparse (mkTriplet A))).1, ?_, ?_⟩
  · simp only [roundtrip, h1]
  · rw [cholmod2scipy_toEntries, triplet_to_sparse_entries, compress_of_nodup hnd]

/-- Witness for C4 (amended) at the concrete input `A2`. -/
theorem C4_roundtrip_distinct_positions_witness :
    cooInvariants A2 ∧ (A2.toEntries.map entryKey).Nodup ∧ 0 < A2.nnz ∧
    ∃ B, roundtrip A2 = some B ∧
      Multiset.ofList B.toEntries = Multiset.ofList A2.toEntries :=
  ⟨by decide, by decide, by decide,
    C4_roundtrip_distinct_positions A2 (by decide) (by decide) (by decide)⟩

/-- C5: for every sequence E of length n that is a bijection on [0, n)
(entries within range and no duplicates), `permutation_from_E E` is an
n×n coordinate matrix with exactly one unit entry in each row and in each
column, located at (E[k], k) for each k < n. -/
theorem C5_permutation_from_E_is_permutation_matrix (E : List Int)
    (hb : ∀ x ∈ E, 0 ≤ x ∧ x < (E.length : Int)) (hnd : E.Nodup) :
    permMatrixSpec E (permutation_from_E E) := by
  have hte := toEntries_permutation_from_E E
  refine ⟨rfl, rfl, ?_, ?_, ?_, ?_⟩
  · rw [hte]; exact expectedPermEntries_length E 0
  · intro k hk
    rw [hte, expectedPermEntries_getD E 0 k hk]
    simp
  · intro r h0 h1
    rw [hte, expectedPermEntries_countP_row E 0 r]
    exact count_eq_one_of_bij hb hnd h0 h1
  · intro c h0 h1
    rw [hte, expectedPermEntries_countP_col E 0 c, if_pos]
    constructor
    · simpa using h0
    · push_cast
      omega

/-- Witness for C5 at the concrete bijection `[1, 0]`. -/
theorem C5_permutation_from_E_is_permutation_matrix_witness :
    (∀ x ∈ ([1, 0] : List Int), 0 ≤ x ∧ x < (([1, 0] : List Int).length : Int)) ∧
    ([1, 0] : List Int).Nodup ∧
    permMatrixSpec [1, 0] (permutation_from_E [1, 0]) :=
  ⟨by decide, by decide,
    C5_permutation_from_E_is_permutation_matrix [1, 0] (by decide) (by decide)⟩

/-- C6 counterexample: the claim says `permutation_from_E` has no failure
modes and returns a matrix for every input sequence, including sequences
violating the bijection precondition; but the `coo_matrix` constructor
validates index bounds, so at the bijection-violating inputs [2, 0] (the
entry 2 is outside [0, 2)) and [-1, 0] (negative entry) the construction
is rejected with a `ValueError` — no matrix is returned. -/
theorem C6_out_of_range_input_rejected :
    permutation_from_E_checked [2, 0] = none ∧
    permutation_from_E_checked [-1, 0] = none := by decide

/-- C6 (amended): `permutation_from_E` rejects no input sequence whose
entries lie within [0, n): for every such E — including sequences that
violate the bijection precondition, such as ones with duplicate entries —
it returns (rather than rejecting with an error) the matrix of shape
(len E, len E) whose k-th stored entry is (E[k], k, 1), structurally
inconsistent as a permutation matrix when E is not a bijection.  Sequences
with out-of-range or negative entries are rejected by the matrix
constructor's validation. -/
theorem C6_in_range_input_never_rejected (E : List Int)
    (hr : ∀ x ∈ E, 0 ≤ x ∧ x < (E.length : Int)) :
    permutation_from_E_checked E = some (permutation_from_E E) ∧
    (permutation_from_E E).nrow = E.length ∧
    (permutation_from_E E).ncol = E.length ∧
    (permutation_from_E E).toEntries.length = E.length ∧
    (permutation_from_E E).toEntries = expectedPermEntries E 0 :=
  ⟨permutation_from_E_checked_of_in_range hr, rfl, rfl,
    by rw [toEntries_permutation_from_E]; exact expectedPermEntries_length E 0,
    toEntries_permutation_from_E E⟩

/-- Witness for C6 (amended) at the in-range but bijection-violating input
[0, 0]. -/
theorem C6_in_range_input_never_rejected_witness :
    (∀ x ∈ ([0, 0] : List Int), 0 ≤ x ∧ x < (([0, 0] : List Int).length : Int)) ∧
    (permutation_from_E_checked [0, 0] = some (permutation_from_E [0, 0]) ∧
      (permutation_from_E [0, 0]).nrow = ([0, 0] : List Int).length ∧
      (permutation_from_E [0, 0]).ncol = ([0, 0] : List Int).length ∧
      (permutation_from_E [0, 0]).toEntries.length = ([0, 0] : List Int).length ∧
      (permutation_from_E [0, 0]).toEntries = expectedPermEntries [0, 0] 0) :=
  ⟨by decide, C6_in_range_input_never_rejected [0, 0] (by decide)⟩

/-- C7: a failing native structural check on the freshly populated triplet
is fatal for `scipy2choldmod`: the operation does not proceed past the
check (the release counter stays 0) and no compressed handle is
returned. -/
theorem C7_failed_check_is_fatal (A : ScipyCoo)
    (h : cholmod_l_check_triplet (mkTriplet A) ≠ 1) :
    scipy2choldmod A = (none, 0) ∧
    ∀ s : CholSparse, (scipy2choldmod A).1 ≠ some s := by
  have hfail := scipy2choldmod_of_check_fail h
  refine ⟨hfail, fun s hs => ?_⟩
  rw [hfail] at hs
  cases hs

/-- Witness for C7 at the concrete invalid input `Abad`. -/
theorem C7_failed_check_is_fatal_witness :
    cholmod_l_check_triplet (mkTriplet Abad) ≠ 1 ∧
    (scipy2choldmod Abad = (none, 0) ∧
      ∀ s : CholSparse, (scipy2choldmod Abad).1 ≠ some s) :=
  ⟨by decide, C7_failed_check_is_fatal Abad (by decide)⟩

/-- C8 counterexample: the claim says the intermediate triplet handle is
released exactly once on every exit path, including the fatal-assertion
path of `scipy2choldmod`; but on the fatal path (input `Abad`, whose
populated triplet fails the check) the release counter is 0, not 1: the
free at line 64 is only reached after the assert at line 59 passes. -/
theorem C8_fatal_path_releases_nothing :
    cholmod_l_check_triplet (mkTriplet Abad) ≠ 1 ∧
    (scipy2choldmod Abad).2 = 0 ∧ (scipy2choldmod Abad).2 ≠ 1 := by decide

/-- C8 (amended): every intermediate triplet handle is released exactly
once on every normally returning exit path of the two conversions, while
on the fatal-assertion path of `scipy2choldmod` it is not released at all
(a latent leak). -/
theorem C8_release_discipline :
    (∀ A : ScipyCoo,
      (cholmod_l_check_triplet (mkTriplet A) = 1 → (scipy2choldmod A).2 = 1) ∧
      (cholmod_l_check_triplet (mkTriplet A) ≠ 1 → (scipy2choldmod A).2 = 0)) ∧
    (∀ s : CholSparse, (cholmod2scipy s).2 = 1) := by
  refine ⟨fun A => ⟨fun h => ?_, fun h => ?_⟩, fun s => rfl⟩
  · rw [scipy2choldmod_of_check_pass h]
  · rw [scipy2choldmod_of_check_fail h]

/-- Witness for C8 (amended) at the concrete inputs `A1` (check passes),
`Abad` (check fails) and `S1c`. -/
theorem C8_release_discipline_witness :
    cholmod_l_check_triplet (mkTriplet A1) = 1 ∧ (scipy2choldmod A1).2 = 1 ∧
    cholmod_l_check_triplet (mkTriplet Abad) ≠ 1 ∧ (scipy2choldmod Abad).2 = 0 ∧
    (cholmod2scipy S1c).2 = 1 :=
  ⟨by decide, (C8_release_discipline.1 A1).1 (by decide), by decide,
    (C8_release_discipline.1 Abad).2 (by decide), C8_release_discipline.2 S1c⟩

/-- C10: every operation of the conversion-and-call layer is deterministic:
two runs of the same operation on identical input produce identical
results.  The native factorization entry point is modelled as a function
of its input (`nqr`), per the specification's statement that all
operations are deterministic given identical input; within one such
behaviour, every pair of runs of `scipy2choldmod`, `cholmod2scipy`, `qr`
and `permutation_from_E` on the same input agree. -/
theorem C10_layer_deterministic :
    (∀ (A : ScipyCoo) (r1 r2 : Option CholSparse × Nat),
      ConvRun A r1 → ConvRun A r2 → r1 = r2) ∧
    (∀ (s : CholSparse) (r1 r2 : ScipyCoo × Nat),
      BackRun s r1 → BackRun s r2 → r1 = r2) ∧
    (∀ (nqr : CholSparse → NativeQROut) (A : ScipyCoo)
      (r1 r2 : Option (ScipyCoo × ScipyCoo × Option (List Int) × Int)),
      QrRun nqr A r1 → QrRun nqr A r2 → r1 = r2) ∧
    (∀ (E : List Int) (M1 M2 : ScipyCoo), PermRun E M1 → PermRun E M2 → M1 = M2) := by
  refine ⟨fun A r1 r2 h1 h2 => ?_, fun s r1 r2 h1 h2 => ?_,
    fun nqr A r1 r2 h1 h2 => ?_, fun E M1 M2 h1 h2 => ?_⟩
  · rw [← convRun_eq h1, convRun_eq h2]
  · rw [← backRun_eq h1, backRun_eq h2]
  · rw [← qrRun_eq h1, qrRun_eq h2]
  · rw [← permRun_eq h1, permRun_eq h2]

/-- Witness for C10: concrete runs of each of the four operations exist
(`A1`, `S1c`, `nqr0` and `[1, 0]`), and the theorem applies to them. -/
theorem C10_layer_deterministic_witness :
    ((some S1c, 1) : Option CholSparse × Nat) = (some S1c, 1) ∧
    ((A1, 1) : ScipyCoo × Nat) = (A1, 1) ∧
    (some res1 : Option (ScipyCoo × ScipyCoo × Option (List Int) × Int)) = some res1 ∧
    permutation_from_E [1, 0] = permutation_from_E [1, 0] :=
  ⟨C10_layer_deterministic.1 A1 (some S1c, 1) (some S1c, 1)
      (ConvRun.ok A1 (mkTriplet A1) rfl (by decide))
      (ConvRun.ok A1 (mkTriplet A1) rfl (by decide)),
    C10_layer_deterministic.2.1 S1c (A1, 1) (A1, 1)
      (BackRun.steps S1c (cholmod_l_sparse_to_triplet S1c) rfl)
      (BackRun.steps S1c (cholmod_l_sparse_to_triplet S1c) rfl),
    C10_layer_deterministic.2.2.1 nqr0 A1 (some res1) (some res1)
      (QrRun.perm A1 S1c (nqr0 S1c) (fun k => (k : Int)) (by decide) rfl (by decide) rfl)
      (QrRun.perm A1 S1c (nqr0 S1c) (fun k => (k : Int)) (by decide) rfl (by decide) rfl),
    C10_layer_deterministic.2.2.2 [1, 0] (permutation_from_E [1, 0])
      (permutation_from_E [1, 0])
      (PermRun.steps [1, 0] 2 rfl) (PermRun.steps [1, 0] 2 rfl)⟩

end SPQR
